import Mathlib

/-!
Shallow embedding of the `reeply` message-thread visualization:

* `src/message-threads/src/lib/api.ts` (= `src/unnamed/part_001`): the
  `MessageSchema` / `ThreadSchema` zod validators and the `getThreads`
  fetcher;
* `src/message-threads/src/components/ThreadVisualization.tsx`: the
  shared-horizontal-virtualizer component (pagination controller, timeline
  range calculator, per-day message grouping, dot rendering, date
  indicator, fetch-more effect);
* `src/unnamed/part_000`: the per-row `ColumnVirtualizer` variant of the
  same component.

Modelling conventions:

* JavaScript epoch-millisecond timestamps (`Date.getTime()`) and pixel
  coordinates are `Int`; within the valid JS `Date` range these arithmetic
  operations are exact, so `Int` arithmetic coincides with the JS number
  arithmetic performed by the code.
* `new Date(string).getTime()` is an environment-provided parse; the view
  computations are parametrized by `parseDate : String → Int`.
* `toISOString().split("T")[0]` renders the UTC calendar day of a
  timestamp; two timestamps agree on that prefix exactly when they have
  the same floor-divided day number `t / 86400000` (`Int` `/` is `ediv`,
  agreeing with mathematical floor division for the positive divisors used
  here, hence with JS `Math.floor` of the real quotient). The day key is
  therefore embedded as that day number.
* `fetch` / `response.json()` are environment effects; `getThreads` is
  modelled as a function of the response (`ok` flag plus decoded JSON
  body).
-/

namespace Reeply

/-- `const THREAD_LIMIT = 50` (ThreadVisualization.tsx line 6). -/
def THREAD_LIMIT : Nat := 50

/-- `const DAY_CELL_WIDTH = 20` — width in pixels per day (line 7). -/
def DAY_CELL_WIDTH : Int := 20

/-- `const ONE_DAY = 24 * 60 * 60 * 1000` (line 8). -/
def ONE_DAY : Int := 24 * 60 * 60 * 1000

/-- `MessageSchema` (api.ts lines 3-6): an object with a string `date`
and a numeric `type`. -/
structure Message where
  date : String
  type : Int
deriving Repr, DecidableEq

/-- `ThreadSchema` (api.ts lines 8-13): an object with a string
`address`, a `messages` array, and string `first_message` /
`last_message` timestamps. -/
structure Thread where
  address : String
  messages : List Message
  first_message : String
  last_message : String
deriving Repr, DecidableEq

/-! ## Timeline range calculator (ThreadVisualization.tsx lines 80-98) -/

/-- One step of `if (first < minTime) minTime = first`, with `none`
playing the role of the initial `Infinity`. -/
def stepMin : Option Int → Int → Option Int
  | none, x => some x
  | some m, x => if x < m then some x else some m

/-- One step of `if (last > maxTime) maxTime = last`, with `none`
playing the role of the initial `-Infinity`. -/
def stepMax : Option Int → Int → Option Int
  | none, x => some x
  | some m, x => if x > m then some x else some m

/-- The `minDate` / `maxDate` useMemo (lines 80-94): for an empty thread
list both are `now` (`new Date()`); otherwise a forEach fold over the
threads of the running minimum of `new Date(thread.first_message)` and
maximum of `new Date(thread.last_message)`.  The `getD now` defaults are
unreachable for a non-empty list. -/
def computeDateRange (parseDate : String → Int) (now : Int)
    (threads : List Thread) : Int × Int :=
  if threads.length = 0 then (now, now)
  else
    let mm := threads.foldl
      (fun acc t => (stepMin acc.1 (parseDate t.first_message),
                     stepMax acc.2 (parseDate t.last_message)))
      ((none : Option Int), (none : Option Int))
    (mm.1.getD now, mm.2.getD now)

/-- `Math.ceil(a / b)` for an exact integer `a` and positive integer `b`:
the ceiling of the rational quotient, written with floor division. -/
def ceilDiv (a b : Int) : Int := -((-a) / b)

/-- The `daysCount` useMemo (lines 96-98):
`Math.ceil((maxDate - minDate) / ONE_DAY) + 1`. -/
def daysCount (minT maxT : Int) : Int := ceilDiv (maxT - minT) ONE_DAY + 1

/-! ## Per-day message grouping and the day cell (lines 138-145, 217-253) -/

/-- The UTC calendar day number of an epoch-millisecond timestamp: the
part of the timestamp that `toISOString().split("T")[0]` renders. -/
def dayKey (t : Int) : Int := t / ONE_DAY

/-- `getMessageCountByDay` (lines 138-145): the forEach building
`counts[day] = (counts[day] || 0) + 1` over the thread messages, as a
total count function over day keys (absent keys read as `0`, mirroring
the `|| 0` at the use site). -/
def getMessageCountByDay (parseDate : String → Int) (msgs : List Message) :
    Int → Nat :=
  msgs.foldl
    (fun counts m => fun d =>
      if d = dayKey (parseDate m.date) then counts d + 1 else counts d)
    (fun _ => 0)

/-- `new Date(minDate.getTime() + dayIndex * ONE_DAY)` (lines 221-223). -/
def cellDate (minT dayIndex : Int) : Int := minT + dayIndex * ONE_DAY

/-- `currentDate.toISOString().split("T")[0]` (line 224): the day key of
the column's date. -/
def cellDateKey (minT dayIndex : Int) : Int := dayKey (cellDate minT dayIndex)

/-- `messageCounts[dateKey] || 0` (line 225). -/
def cellCount (messageCounts : Int → Nat) (minT dayIndex : Int) : Nat :=
  messageCounts (cellDateKey minT dayIndex)

/-- `Math.min(12, count * 3)` — dot width and height in pixels
(lines 240-241). -/
def dotSize (count : Nat) : Int := min 12 ((count : Int) * 3)

/-- The conditional dot render `count > 0 && <div .../>` (lines 237-250):
`some size` when a dot is rendered, `none` otherwise. -/
def renderDot (count : Nat) : Option Int :=
  if 0 < count then some (dotSize count) else none

/-! ## Date indicator (ThreadVisualization.tsx lines 26-40) -/

/-- `Math.floor(scrollLeft / DAY_CELL_WIDTH)` (line 31). -/
def indicatorStartIndex (scrollLeft : Int) : Int :=
  scrollLeft / DAY_CELL_WIDTH

/-- `Math.floor((scrollLeft + clientWidth) / DAY_CELL_WIDTH)` (line 32). -/
def indicatorEndIndex (scrollLeft clientWidth : Int) : Int :=
  (scrollLeft + clientWidth) / DAY_CELL_WIDTH

/-- `new Date(minDate.getTime() + startIndex * ONE_DAY)` (line 33). -/
def indicatorStartDate (minT scrollLeft : Int) : Int :=
  minT + indicatorStartIndex scrollLeft * ONE_DAY

/-- `new Date(minDate.getTime() + endIndex * ONE_DAY)` (line 34). -/
def indicatorEndDate (minT scrollLeft clientWidth : Int) : Int :=
  minT + indicatorEndIndex scrollLeft clientWidth * ONE_DAY

/-! ## Day-column geometry (lines 163-253)

Each row starts with the sticky address block of width `200` plus
`0 10px` horizontal padding, i.e. `220` content pixels (matching the
`220 + totalSize` row width of line 166); day column `i` then occupies
content pixels `[220 + 20*i, 220 + 20*(i+1))`, its `left` being the
virtualizer offset `DAY_CELL_WIDTH * i`. -/

/-- Width in content pixels of the sticky address gutter. -/
def ADDRESS_GUTTER : Int := 220

/-- Day column `i` overlaps the scroll viewport `[s, s + w)`: the column
exists (`0 ≤ i < daysCount`) and its pixel span meets the viewport. -/
def columnVisible (dc s w i : Int) : Prop :=
  0 ≤ i ∧ i < dc ∧
  ADDRESS_GUTTER + DAY_CELL_WIDTH * i < s + w ∧
  s < ADDRESS_GUTTER + DAY_CELL_WIDTH * (i + 1)

instance (dc s w i : Int) : Decidable (columnVisible dc s w i) := by
  unfold columnVisible; infer_instance

/-- The list of visible day-column indices, by the same overlap test. -/
def visibleColumns (dc : Nat) (s w : Int) : List Nat :=
  (List.range dc).filter (fun i =>
    decide (ADDRESS_GUTTER + DAY_CELL_WIDTH * (i : Int) < s + w) &&
    decide (s < ADDRESS_GUTTER + DAY_CELL_WIDTH * ((i : Int) + 1)))

/-! ## Pagination controller (ThreadVisualization.tsx lines 66-77) -/

/-- `getNextPageParam` (lines 71-74): `undefined` when the last page is
short, otherwise the next offset `allPages.length * THREAD_LIMIT`. -/
def getNextPageParam (lastPage : List Thread)
    (allPages : List (List Thread)) : Option Nat :=
  if lastPage.length < THREAD_LIMIT then none
  else some (allPages.length * THREAD_LIMIT)

/-- `data?.pages.flat() || []` (line 77). -/
def threadsOf (pages : List (List Thread)) : List Thread := pages.flatten

/-- The page lists reachable by the infinite query against an abstract
backend `server offset limit`: the initial fetch uses
`initialPageParam = 0` (line 68) via `getThreads(pageParam, THREAD_LIMIT)`
(line 70), and each further fetch uses the offset produced by
`getNextPageParam` on the last page. -/
inductive PagesReachable (server : Nat → Nat → List Thread) :
    List (List Thread) → Prop
  | init : PagesReachable server [server 0 THREAD_LIMIT]
  | step (pages : List (List Thread)) (last : List Thread) (off : Nat) :
      PagesReachable server pages →
      pages.getLast? = some last →
      getNextPageParam last pages = some off →
      PagesReachable server (pages ++ [server off THREAD_LIMIT])

/-! ## Fetch-more effect (ThreadVisualization.tsx lines 117-135) -/

/-- The guard of the fetch-more useEffect: no-op on an empty virtual-item
list (line 120), otherwise
`lastItem.index >= threads.length - 1 && hasNextPage && !isFetchingNextPage`
(lines 122-126), with the JS subtraction `threads.length - 1` taken
in `Int`. -/
def shouldFetchNext (virtualRows : List Nat) (threadCount : Nat)
    (hasNextPage isFetchingNextPage : Bool) : Bool :=
  match virtualRows.getLast? with
  | none => false
  | some lastIdx =>
    decide ((threadCount : Int) - 1 ≤ (lastIdx : Int)) &&
      (hasNextPage && !isFetchingNextPage)

/-- react-query's `hasNextPage`: defined and true exactly when
`getNextPageParam` applied to the last fetched page yields an offset. -/
def hasNextPageOf (pages : List (List Thread)) : Bool :=
  match pages.getLast? with
  | none => false
  | some last => (getNextPageParam last pages).isSome

/-- State of the pagination effect: the fetched pages and the number of
`fetchNextPage` calls still in flight (`isFetchingNextPage` reads as
`inFlight ≠ 0`). -/
structure FetchSt where
  pages : List (List Thread)
  inFlight : Nat
deriving Repr, DecidableEq

/-- One transition of the fetch-more loop: either the effect runs and its
guard fires (starting a fetch), or an in-flight fetch completes and
appends its page. -/
inductive FetchStep : FetchSt → FetchSt → Prop
  | effect (st : FetchSt) (rows : List Nat)
      (hfire : shouldFetchNext rows (threadsOf st.pages).length
        (hasNextPageOf st.pages) (st.inFlight != 0) = true) :
      FetchStep st ⟨st.pages, st.inFlight + 1⟩
  | complete (st : FetchSt) (page : List Thread)
      (hin : st.inFlight ≠ 0) :
      FetchStep st ⟨st.pages ++ [page], st.inFlight - 1⟩

/-- States reachable from an idle state with page list `pages0`. -/
inductive FetchReach (pages0 : List (List Thread)) : FetchSt → Prop
  | init : FetchReach pages0 ⟨pages0, 0⟩
  | step {s t : FetchSt} :
      FetchReach pages0 s → FetchStep s t → FetchReach pages0 t

/-! ## The API client (api.ts / part_001) -/

/-- Decoded JSON values, as produced by `response.json()`. -/
inductive Json where
  | null : Json
  | bool : Bool → Json
  | num : Int → Json
  | str : String → Json
  | arr : List Json → Json
  | obj : List (String × Json) → Json

/-- Field lookup in a JSON object. -/
def jsonLookup (fields : List (String × Json)) (key : String) : Option Json :=
  (fields.find? (fun p => p.fst == key)).map Prod.snd

/-- `z.string()` applied to a value. -/
def parseStr : Json → Except String String
  | .str s => .ok s
  | _ => .error "invalid_type: expected string"

/-- `z.number()` applied to a value. -/
def parseNum : Json → Except String Int
  | .num n => .ok n
  | _ => .error "invalid_type: expected number"

/-- Access to a required object field, as `z.object` does: an error on a
non-object or on a missing key. -/
def getField : Json → String → Except String Json
  | .obj fields, key =>
    match jsonLookup fields key with
    | some v => .ok v
    | none => .error ("invalid_type: required " ++ key)
  | _, _ => .error "invalid_type: expected object"

/-- `MessageSchema.parse`: a `date` string and a `type` number. -/
def parseMessage (j : Json) : Except String Message :=
  match getField j "date" with
  | .error e => .error e
  | .ok dj =>
    match parseStr dj with
    | .error e => .error e
    | .ok dateS =>
      match getField j "type" with
      | .error e => .error e
      | .ok tj =>
        match parseNum tj with
        | .error e => .error e
        | .ok tyN => .ok { date := dateS, type := tyN }

/-- `z.array(p).parse`: every element must parse; the first element
failure is the array's failure. -/
def parseList {α : Type} (p : Json → Except String α) :
    List Json → Except String (List α)
  | [] => .ok []
  | e :: es =>
    match p e with
    | .error err => .error err
    | .ok a =>
      match parseList p es with
      | .error err => .error err
      | .ok as => .ok (a :: as)

/-- `z.array(MessageSchema)` applied to a value. -/
def parseMessageArray : Json → Except String (List Message)
  | .arr es => parseList parseMessage es
  | _ => .error "invalid_type: expected array"

/-- `ThreadSchema.parse`: an `address` string, a `messages` array of
messages, and `first_message` / `last_message` strings. -/
def parseThread (j : Json) : Except String Thread :=
  match getField j "address" with
  | .error e => .error e
  | .ok aj =>
    match parseStr aj with
    | .error e => .error e
    | .ok addr =>
      match getField j "messages" with
      | .error e => .error e
      | .ok mj =>
        match parseMessageArray mj with
        | .error e => .error e
        | .ok msgs =>
          match getField j "first_message" with
          | .error e => .error e
          | .ok fj =>
            match parseStr fj with
            | .error e => .error e
            | .ok firstS =>
              match getField j "last_message" with
              | .error e => .error e
              | .ok lj =>
                match parseStr lj with
                | .error e => .error e
                | .ok lastS =>
                  .ok { address := addr, messages := msgs,
                        first_message := firstS, last_message := lastS }

/-- `z.array(ThreadSchema).parse(data)` (api.ts line 31). -/
def parseThreadArray : Json → Except String (List Thread)
  | .arr es => parseList parseThread es
  | _ => .error "invalid_type: expected array"

/-- An HTTP response as `getThreads` observes it: the `ok` flag and the
JSON-decoded body. -/
structure HttpResponse where
  ok : Bool
  body : Json

/-- `getThreads` (api.ts lines 20-32): throw `"Failed to fetch threads"`
on a non-ok response, otherwise validate the body against
`z.array(ThreadSchema)`. -/
def getThreads (resp : HttpResponse) : Except String (List Thread) :=
  if !resp.ok then .error "Failed to fetch threads"
  else parseThreadArray resp.body

/-- The claim's well-formedness test on one message value: carries a
string `date` and a numeric `type`. -/
def validMessage : Json → Bool
  | .obj fields =>
    (match jsonLookup fields "date" with
     | some (.str _) => true | _ => false) &&
    (match jsonLookup fields "type" with
     | some (.num _) => true | _ => false)
  | _ => false

/-- The claim's well-formedness test on one thread value: a string
`address`, a list of well-formed messages, and string `first_message` /
`last_message` timestamps. -/
def validThread : Json → Bool
  | .obj fields =>
    (match jsonLookup fields "address" with
     | some (.str _) => true | _ => false) &&
    (match jsonLookup fields "messages" with
     | some (.arr ms) => ms.all validMessage | _ => false) &&
    (match jsonLookup fields "first_message" with
     | some (.str _) => true | _ => false) &&
    (match jsonLookup fields "last_message" with
     | some (.str _) => true | _ => false)
  | _ => false

/-- The claim's well-formedness test on the response body: an array of
well-formed threads. -/
def validBody : Json → Bool
  | .arr es => es.all validThread
  | _ => false

end Reeply

/-! ## The per-row variant (src/unnamed/part_000)

The same component with a per-row `ColumnVirtualizer` instead of the
shared horizontal virtualizer.  Its cell computations (part_000 lines
40-73), `getMessageCountByDay` (lines 197-204) and `DateIndicator`
(lines 97-104) are embedded again, verbatim from that file, so that
their agreement with the shared-virtualizer versions can be stated. -/

namespace PerRow

open Reeply (Message Thread DAY_CELL_WIDTH ONE_DAY dayKey)

/-- part_000 lines 197-204: the same per-day counting forEach. -/
def getMessageCountByDay (parseDate : String → Int) (msgs : List Message) :
    Int → Nat :=
  msgs.foldl
    (fun counts m => fun d =>
      if d = dayKey (parseDate m.date) then counts d + 1 else counts d)
    (fun _ => 0)

/-- part_000 line 42: `new Date(minDate.getTime() + dayIndex * ONE_DAY)`. -/
def cellDate (minT dayIndex : Int) : Int := minT + dayIndex * ONE_DAY

/-- part_000 line 43: the rendered column's day key. -/
def cellDateKey (minT dayIndex : Int) : Int := dayKey (cellDate minT dayIndex)

/-- part_000 line 44: `messageCounts[dateKey] || 0`. -/
def cellCount (messageCounts : Int → Nat) (minT dayIndex : Int) : Nat :=
  messageCounts (cellDateKey minT dayIndex)

/-- part_000 lines 60-61: `Math.min(12, count * 3)`. -/
def dotSize (count : Nat) : Int := min 12 ((count : Int) * 3)

/-- part_000 lines 57-70: the conditional dot render. -/
def renderDot (count : Nat) : Option Int :=
  if 0 < count then some (dotSize count) else none

/-- part_000 line 99: `Math.floor(scrollLeft / DAY_CELL_WIDTH)`. -/
def indicatorStartIndex (scrollLeft : Int) : Int :=
  scrollLeft / DAY_CELL_WIDTH

/-- part_000 line 100:
`Math.floor((scrollLeft + clientWidth) / DAY_CELL_WIDTH)`. -/
def indicatorEndIndex (scrollLeft clientWidth : Int) : Int :=
  (scrollLeft + clientWidth) / DAY_CELL_WIDTH

/-- part_000 line 101: the indicated start date. -/
def indicatorStartDate (minT scrollLeft : Int) : Int :=
  minT + indicatorStartIndex scrollLeft * ONE_DAY

/-- part_000 line 102: the indicated end date. -/
def indicatorEndDate (minT scrollLeft clientWidth : Int) : Int :=
  minT + indicatorEndIndex scrollLeft clientWidth * ONE_DAY

end PerRow

namespace Reeply

/-! ## Lemmas about the timeline range fold -/

@[simp] lemma stepMin_none (x : Int) : stepMin none x = some x := rfl

@[simp] lemma stepMax_none (x : Int) : stepMax none x = some x := rfl

lemma stepMin_some (a x : Int) : stepMin (some a) x = some (min a x) := by
  simp only [stepMin]
  split
  · next h => rw [min_eq_right (le_of_lt h)]
  · next h => rw [min_eq_left (le_of_not_lt h)]

lemma stepMax_some (a x : Int) : stepMax (some a) x = some (max a x) := by
  simp only [stepMax]
  split
  · next h => rw [max_eq_right (le_of_lt h)]
  · next h => rw [max_eq_left (le_of_not_lt h)]

lemma foldl_stepMinMax (f g : Thread → Int) (l : List Thread)
    (a b : Option Int) :
    l.foldl (fun acc t => (stepMin acc.1 (f t), stepMax acc.2 (g t))) (a, b)
      = (l.foldl (fun acc t => stepMin acc (f t)) a,
         l.foldl (fun acc t => stepMax acc (g t)) b) := by
  induction l generalizing a b with
  | nil => rfl
  | cons x xs ih => simp only [List.foldl_cons]; exact ih _ _

lemma foldl_stepMin_eq (f : Thread → Int) (l : List Thread) (a : Int) :
    l.foldl (fun acc t => stepMin acc (f t)) (some a)
      = some (l.foldl (fun acc t => min acc (f t)) a) := by
  induction l generalizing a with
  | nil => rfl
  | cons x xs ih => simp only [List.foldl_cons, stepMin_some]; exact ih _

lemma foldl_stepMax_eq (f : Thread → Int) (l : List Thread) (a : Int) :
    l.foldl (fun acc t => stepMax acc (f t)) (some a)
      = some (l.foldl (fun acc t => max acc (f t)) a) := by
  induction l generalizing a with
  | nil => rfl
  | cons x xs ih => simp only [List.foldl_cons, stepMax_some]; exact ih _

lemma foldl_min_spec (f : Thread → Int) (l : List Thread) (a : Int) :
    (l.foldl (fun acc t => min acc (f t)) a ≤ a) ∧
    (∀ t ∈ l, l.foldl (fun acc t => min acc (f t)) a ≤ f t) ∧
    (l.foldl (fun acc t => min acc (f t)) a = a ∨
      ∃ t ∈ l, l.foldl (fun acc t => min acc (f t)) a = f t) := by
  induction l generalizing a with
  | nil => simp
  | cons x xs ih =>
    obtain ⟨h1, h2, h3⟩ := ih (min a (f x))
    simp only [List.foldl_cons]
    refine ⟨le_trans h1 (min_le_left _ _), ?_, ?_⟩
    · intro t ht
      rcases List.mem_cons.mp ht with rfl | ht
      · exact le_trans h1 (min_le_right _ _)
      · exact h2 t ht
    · rcases h3 with h | ⟨t, ht, heq⟩
      · rcases le_total a (f x) with hle | hle
        · left; rw [h, min_eq_left hle]
        · right
          exact ⟨x, List.mem_cons_self x xs, by rw [h, min_eq_right hle]⟩
      · exact Or.inr ⟨t, List.mem_cons_of_mem _ ht, heq⟩

lemma foldl_max_spec (f : Thread → Int) (l : List Thread) (a : Int) :
    (a ≤ l.foldl (fun acc t => max acc (f t)) a) ∧
    (∀ t ∈ l, f t ≤ l.foldl (fun acc t => max acc (f t)) a) ∧
    (l.foldl (fun acc t => max acc (f t)) a = a ∨
      ∃ t ∈ l, l.foldl (fun acc t => max acc (f t)) a = f t) := by
  induction l generalizing a with
  | nil => simp
  | cons x xs ih =>
    obtain ⟨h1, h2, h3⟩ := ih (max a (f x))
    simp only [List.foldl_cons]
    refine ⟨le_trans (le_max_left _ _) h1, ?_, ?_⟩
    · intro t ht
      rcases List.mem_cons.mp ht with rfl | ht
      · exact le_trans (le_max_right _ _) h1
      · exact h2 t ht
    · rcases h3 with h | ⟨t, ht, heq⟩
      · rcases le_total a (f x) with hle | hle
        · right
          exact ⟨x, List.mem_cons_self x xs, by rw [h, max_eq_right hle]⟩
        · left; rw [h, max_eq_left hle]
      · exact Or.inr ⟨t, List.mem_cons_of_mem _ ht, heq⟩

lemma computeDateRange_cons (parseDate : String → Int) (now : Int)
    (t : Thread) (ts : List Thread) :
    computeDateRange parseDate now (t :: ts) =
      (ts.foldl (fun acc u => min acc (parseDate u.first_message))
         (parseDate t.first_message),
       ts.foldl (fun acc u => max acc (parseDate u.last_message))
         (parseDate t.last_message)) := by
  unfold computeDateRange
  rw [if_neg (by simp)]
  simp only [List.foldl_cons, stepMin_none, stepMax_none]
  rw [foldl_stepMinMax, foldl_stepMin_eq, foldl_stepMax_eq]
  rfl

/-- C1: for every non-empty list of loaded threads whose precomputed
`first_message` / `last_message` fields bound their messages, the
timeline range calculator returns `minDate` equal to the global minimum
and `maxDate` equal to the global maximum of those fields, so `minDate`
is no later and `maxDate` no earlier than the date of any message of any
loaded thread. -/
theorem timeline_range_correct (parseDate : String → Int) (now : Int)
    (threads : List Thread) (minT maxT : Int)
    (heq : computeDateRange parseDate now threads = (minT, maxT))
    (hne : threads ≠ [])
    (hwf : ∀ t ∈ threads, ∀ m ∈ t.messages,
      parseDate t.first_message ≤ parseDate m.date ∧
      parseDate m.date ≤ parseDate t.last_message) :
    (∃ t ∈ threads, minT = parseDate t.first_message) ∧
    (∀ t ∈ threads, minT ≤ parseDate t.first_message) ∧
    (∃ t ∈ threads, maxT = parseDate t.last_message) ∧
    (∀ t ∈ threads, parseDate t.last_message ≤ maxT) ∧
    (∀ t ∈ threads, ∀ m ∈ t.messages,
      minT ≤ parseDate m.date ∧ parseDate m.date ≤ maxT) := by
  cases threads with
  | nil => exact absurd rfl hne
  | cons t ts =>
    rw [computeDateRange_cons] at heq
    injection heq with h1 h2
    subst h1; subst h2
    obtain ⟨hminA, hminB, hminC⟩ :=
      foldl_min_spec (fun u => parseDate u.first_message) ts
        (parseDate t.first_message)
    obtain ⟨hmaxA, hmaxB, hmaxC⟩ :=
      foldl_max_spec (fun u => parseDate u.last_message) ts
        (parseDate t.last_message)
    have hminAll : ∀ u ∈ t :: ts,
        (ts.foldl (fun acc u => min acc (parseDate u.first_message))
          (parseDate t.first_message)) ≤ parseDate u.first_message := by
      intro u hu
      rcases List.mem_cons.mp hu with rfl | hu
      · exact hminA
      · exact hminB u hu
    have hmaxAll : ∀ u ∈ t :: ts,
        parseDate u.last_message ≤
          (ts.foldl (fun acc u => max acc (parseDate u.last_message))
            (parseDate t.last_message)) := by
      intro u hu
      rcases List.mem_cons.mp hu with rfl | hu
      · exact hmaxA
      · exact hmaxB u hu
    refine ⟨?_, hminAll, ?_, hmaxAll, ?_⟩
    · rcases hminC with h | ⟨u, hu, h⟩
      · exact ⟨t, List.mem_cons_self t ts, h⟩
      · exact ⟨u, List.mem_cons_of_mem _ hu, h⟩
    · rcases hmaxC with h | ⟨u, hu, h⟩
      · exact ⟨t, List.mem_cons_self t ts, h⟩
      · exact ⟨u, List.mem_cons_of_mem _ hu, h⟩
    · intro u hu m hm
      exact ⟨le_trans (hminAll u hu) ((hwf u hu m hm).1),
             le_trans ((hwf u hu m hm).2) (hmaxAll u hu)⟩

/-- A concrete date parse for witnesses: one hour per character. -/
def parseDateHours : String → Int := fun s => (s.length : Int) * 3600000

/-- A concrete thread whose first message is at 01:00 and whose last
message is at 23:00 of the same UTC day. -/
def threadSameDay : Thread :=
  { address := "addr"
    messages := [{ date := "a", type := 0 },
                 { date := "abcdefghijklmnopqrstuvw", type := 0 }]
    first_message := "a"
    last_message := "abcdefghijklmnopqrstuvw" }

theorem timeline_range_correct_witness :
    (3600000 : Int) ≤ parseDateHours "a" ∧
    parseDateHours "abcdefghijklmnopqrstuvw" ≤ (82800000 : Int) :=
  ⟨((timeline_range_correct parseDateHours 0 [threadSameDay]
      3600000 82800000 (by decide) (by simp) (by decide)).2.1
      threadSameDay (by simp)),
   ((timeline_range_correct parseDateHours 0 [threadSameDay]
      3600000 82800000 (by decide) (by simp) (by decide)).2.2.2.1
      threadSameDay (by simp))⟩

/-! ## Day-count arithmetic -/

lemma ONE_DAY_pos : (0 : Int) < ONE_DAY := by decide

/-- The number of distinct UTC calendar days in the inclusive range from
`minT` to `maxT`, as the claim words it (definition on the spec's side,
for comparison with the code's `daysCount`). -/
def spec_distinctDayCount (minT maxT : Int) : Int :=
  dayKey maxT - dayKey minT + 1

lemma ediv_eq_neg_one {x D : Int} (hD : 0 < D) (h0 : -D ≤ x) (h1 : x < 0) :
    x / D = -1 := by
  have h2 : (x + 1 * D) / D = x / D + 1 :=
    Int.add_mul_ediv_right x 1 (ne_of_gt hD)
  have h3 : (x + 1 * D) / D = 0 :=
    Int.ediv_eq_zero_of_lt (by omega) (by omega)
  omega

lemma ceilDiv_split (m M D : Int) (hD : 0 < D) :
    ceilDiv (M - m) D =
      M / D - m / D + (if m % D < M % D then 1 else 0) := by
  have hm := Int.ediv_add_emod m D
  have hM := Int.ediv_add_emod M D
  have hm0 : 0 ≤ m % D := Int.emod_nonneg m (ne_of_gt hD)
  have hm1 : m % D < D := Int.emod_lt_of_pos m hD
  have hM0 : 0 ≤ M % D := Int.emod_nonneg M (ne_of_gt hD)
  have hM1 : M % D < D := Int.emod_lt_of_pos M hD
  unfold ceilDiv
  have hrw : -(M - m) = (m % D - M % D) + (m / D - M / D) * D := by
    linear_combination hM - hm
  rw [hrw, Int.add_mul_ediv_right _ _ (ne_of_gt hD)]
  by_cases hc : m % D < M % D
  · rw [if_pos hc]
    have hneg : (m % D - M % D) / D = -1 :=
      ediv_eq_neg_one hD (by omega) (by omega)
    omega
  · rw [if_neg hc]
    have hzero : (m % D - M % D) / D = 0 :=
      Int.ediv_eq_zero_of_lt (by omega) (by omega)
    omega

lemma daysCount_split (m M : Int) :
    daysCount m M = spec_distinctDayCount m M +
      (if m % ONE_DAY < M % ONE_DAY then 1 else 0) := by
  unfold daysCount spec_distinctDayCount dayKey
  rw [ceilDiv_split m M ONE_DAY ONE_DAY_pos]
  split <;> omega

lemma cellDateKey_shift (minT i : Int) :
    cellDateKey minT i = dayKey minT + i := by
  unfold cellDateKey cellDate dayKey
  exact Int.add_mul_ediv_right minT i (ne_of_gt ONE_DAY_pos)

/-- C2 (counterexample): a single loaded thread with messages at 01:00
and 23:00 of one UTC day yields `daysCount = 2`, but the inclusive range
from `minDate` to `maxDate` holds exactly one distinct UTC calendar
day. -/
theorem daysCount_counterexample :
    computeDateRange parseDateHours 0 [threadSameDay] =
      (3600000, 82800000) ∧
    daysCount 3600000 82800000 = 2 ∧
    spec_distinctDayCount 3600000 82800000 = 1 := by decide

/-- C2 (amended): the derived day-column count
`ceil((maxDate - minDate) / ONE_DAY) + 1` is at least the number of
distinct UTC calendar days in the inclusive range from `minDate` to
`maxDate` and exceeds it by at most one — by exactly one precisely when
`maxDate` falls later within its UTC day than `minDate` does; every
calendar day in the range is still covered by exactly one day column. -/
theorem daysCount_amended (minT maxT : Int) (h : minT ≤ maxT) :
    spec_distinctDayCount minT maxT ≤ daysCount minT maxT ∧
    daysCount minT maxT ≤ spec_distinctDayCount minT maxT + 1 ∧
    (daysCount minT maxT = spec_distinctDayCount minT maxT ↔
      maxT % ONE_DAY ≤ minT % ONE_DAY) ∧
    (∀ d : Int, dayKey minT ≤ d → d ≤ dayKey maxT →
      ∃ i : Int, (0 ≤ i ∧ i < daysCount minT maxT ∧
          cellDateKey minT i = d) ∧
        ∀ j : Int, cellDateKey minT j = d → j = i) := by
  have hsplit := daysCount_split minT maxT
  have hspec : spec_distinctDayCount minT maxT =
      dayKey maxT - dayKey minT + 1 := rfl
  have hspan : dayKey minT ≤ dayKey maxT := Int.ediv_le_ediv ONE_DAY_pos h
  refine ⟨?_, ?_, ?_, ?_⟩
  · rw [hsplit]; split <;> omega
  · rw [hsplit]; split <;> omega
  · rw [hsplit]; split <;> omega
  · intro d hd1 hd2
    refine ⟨d - dayKey minT, ⟨by omega, ?_, ?_⟩, ?_⟩
    · have h1 : spec_distinctDayCount minT maxT ≤ daysCount minT maxT := by
        rw [hsplit]; split <;> omega
      omega
    · rw [cellDateKey_shift]; omega
    · intro j hj
      rw [cellDateKey_shift] at hj
      omega

theorem daysCount_amended_witness :
    spec_distinctDayCount 3600000 82800000 ≤ daysCount 3600000 82800000 ∧
    daysCount 3600000 82800000 ≤ spec_distinctDayCount 3600000 82800000 + 1 :=
  ⟨(daysCount_amended 3600000 82800000 (by decide)).1,
   (daysCount_amended 3600000 82800000 (by decide)).2.1⟩

/-! ## Per-day counting lemmas -/

lemma getMessageCountByDay_aux (pd : String → Int) (msgs : List Message)
    (acc : Int → Nat) (d : Int) :
    (msgs.foldl
      (fun counts m => fun x =>
        if x = dayKey (pd m.date) then counts x + 1 else counts x) acc) d
      = acc d + (msgs.filter (fun m => dayKey (pd m.date) == d)).length := by
  induction msgs generalizing acc with
  | nil => simp
  | cons m ms ih =>
    simp only [List.foldl_cons]
    rw [ih]
    simp only [List.filter_cons]
    by_cases hc : dayKey (pd m.date) = d
    · subst hc
      simp only [beq_self_eq_true, if_true, if_pos rfl, List.length_cons]
      omega
    · have hb : (dayKey (pd m.date) == d) = false := by
        simpa using hc
      rw [hb]
      have hnd : ¬ d = dayKey (pd m.date) := fun h => hc h.symm
      simp only [Bool.false_eq_true, if_false, if_neg hnd]

lemma getMessageCountByDay_filter (pd : String → Int) (msgs : List Message)
    (d : Int) :
    getMessageCountByDay pd msgs d
      = (msgs.filter (fun m => dayKey (pd m.date) == d)).length := by
  unfold getMessageCountByDay
  rw [getMessageCountByDay_aux]
  omega

lemma renderDot_isSome (n : Nat) : (renderDot n).isSome = true ↔ 0 < n := by
  unfold renderDot
  split
  · next h => simp [h]
  · next h => simp [h]

/-- C3: in a (thread, day) cell, a dot is rendered exactly when the
thread has at least one message whose UTC calendar day equals the
column's day key (`minDate` plus `dayIndex` days); the dot's size is
the function `Math.min(12, count * 3)` of the thread's message count on
that day, which is monotone in the count. -/
theorem day_cell_render_correct (pd : String → Int) (msgs : List Message)
    (minT i : Int) :
    getMessageCountByDay pd msgs (cellDateKey minT i)
      = (msgs.filter
          (fun m => dayKey (pd m.date) == cellDateKey minT i)).length ∧
    ((renderDot (getMessageCountByDay pd msgs (cellDateKey minT i))).isSome
        = true ↔
      ∃ m ∈ msgs, dayKey (pd m.date) = cellDateKey minT i) ∧
    (∀ c : Nat, 0 < c → renderDot c = some (dotSize c)) ∧
    (∀ c1 c2 : Nat, c1 ≤ c2 → dotSize c1 ≤ dotSize c2) := by
  refine ⟨getMessageCountByDay_filter pd msgs _, ?_, ?_, ?_⟩
  · rw [renderDot_isSome, getMessageCountByDay_filter]
    rw [List.length_pos]
    constructor
    · intro h
      obtain ⟨m, hm⟩ := List.exists_mem_of_ne_nil _ h
      obtain ⟨hmem, hp⟩ := List.mem_filter.mp hm
      exact ⟨m, hmem, by simpa using hp⟩
    · rintro ⟨m, hm, hd⟩
      exact List.ne_nil_of_mem
        (List.mem_filter.mpr ⟨hm, by simpa using hd⟩)
  · intro c hc
    unfold renderDot
    rw [if_pos hc]
  · intro c1 c2 h
    unfold dotSize
    exact min_le_min (le_refl _)
      (mul_le_mul_of_nonneg_right (Int.ofNat_le.mpr h) (by norm_num))

theorem day_cell_render_correct_witness :
    renderDot 1 = some (dotSize 1) ∧ dotSize 3 ≤ dotSize 4 :=
  ⟨(day_cell_render_correct parseDateHours [] 0 0).2.2.1 1 (by decide),
   (day_cell_render_correct parseDateHours [] 0 0).2.2.2 3 4 (by decide)⟩

/-- C10: a rendered dot's width and height are exactly
`Math.min(12, count * 3)` pixels; the diameter never exceeds 12, and any
count of four or more renders the identical 12-pixel dot. -/
theorem dot_size_correct (count : Nat) (h : 0 < count) :
    renderDot count = some (min 12 ((count : Int) * 3)) ∧
    dotSize count ≤ 12 ∧
    (4 ≤ count → dotSize count = 12) := by
  refine ⟨?_, min_le_left _ _, ?_⟩
  · unfold renderDot dotSize
    rw [if_pos h]
  · intro h4
    unfold dotSize
    rw [min_eq_left (by omega : (12 : Int) ≤ (count : Int) * 3)]

theorem dot_size_correct_witness :
    renderDot 5 = some (min 12 (((5 : Nat) : Int) * 3)) ∧
    dotSize 5 ≤ 12 ∧
    (4 ≤ 5 → dotSize 5 = 12) :=
  dot_size_correct 5 (by decide)

/-! ## Accumulated thread list -/

/-- C8: the displayed thread list is the flattening of the fetched pages
in fetch order; appending a further page appends its threads at the end,
leaving every previously loaded thread and the relative order unchanged
(the old list is literally the prefix of the new one). -/
theorem threads_flat_append (pages : List (List Thread))
    (page : List Thread) :
    threadsOf (pages ++ [page]) = threadsOf pages ++ page ∧
    (threadsOf (pages ++ [page])).take (threadsOf pages).length
      = threadsOf pages := by
  have h : threadsOf (pages ++ [page]) = threadsOf pages ++ page := by
    unfold threadsOf
    simp
  exact ⟨h, by rw [h]; exact List.take_left _ _⟩

/-! ## Pagination lemmas -/

lemma lastMem {α : Type} {l : List α} {a : α}
    (h : l.getLast? = some a) : a ∈ l := by
  cases l with
  | nil => simp at h
  | cons x xs =>
    rw [List.getLast?_eq_getLast_of_ne_nil (List.cons_ne_nil x xs)] at h
    injection h with h
    exact h ▸ List.getLast_mem _

lemma lastExists {α : Type} {l : List α} (h : l ≠ []) :
    ∃ a, l.getLast? = some a :=
  ⟨l.getLast h, List.getLast?_eq_getLast_of_ne_nil h⟩

/-- C4: threads are requested in fixed-size batches by offset — the
`k`-th fetched page is `server (k * THREAD_LIMIT) THREAD_LIMIT` — and,
for a backend that honours the requested limit, `getNextPageParam`
reports that more pages remain exactly when the last fetched page
contains exactly `THREAD_LIMIT` threads. -/
theorem pagination_batches (server : Nat → Nat → List Thread)
    (hlim : ∀ off lim, (server off lim).length ≤ lim)
    (pages : List (List Thread)) (hr : PagesReachable server pages) :
    pages = (List.range pages.length).map
      (fun k => server (k * THREAD_LIMIT) THREAD_LIMIT) ∧
    (∀ last, pages.getLast? = some last →
      ((getNextPageParam last pages).isSome = true ↔
        last.length = THREAD_LIMIT)) := by
  have hmap : pages = (List.range pages.length).map
      (fun k => server (k * THREAD_LIMIT) THREAD_LIMIT) := by
    induction hr with
    | init => simp [List.range_succ]
    | step pages last off hr hlast hoff ih =>
      have hofeq : off = pages.length * THREAD_LIMIT := by
        unfold getNextPageParam at hoff
        split at hoff
        · exact absurd hoff (by simp)
        · injection hoff with h
          exact h.symm
      subst hofeq
      have hl : (pages ++ [server (pages.length * THREAD_LIMIT)
          THREAD_LIMIT]).length = pages.length + 1 := by simp
      rw [hl, List.range_succ, List.map_append, ← ih]
      simp
  refine ⟨hmap, ?_⟩
  intro last hlast
  have hmem : last ∈ pages := lastMem hlast
  have hlen : last.length ≤ THREAD_LIMIT := by
    rw [hmap] at hmem
    obtain ⟨k, _, hkeq⟩ := List.mem_map.mp hmem
    exact hkeq ▸ hlim _ _
  unfold getNextPageParam
  split
  · next hlt => simp; omega
  · next hge => simp; omega

/-- A trivial backend for the pagination witness. -/
def emptyServer : Nat → Nat → List Thread := fun _ _ => []

theorem pagination_batches_witness :
    ([[]] : List (List Thread))
      = (List.range ([[]] : List (List Thread)).length).map
          (fun k => emptyServer (k * THREAD_LIMIT) THREAD_LIMIT) :=
  (pagination_batches emptyServer (fun _ _ => Nat.zero_le _) [[]]
    PagesReachable.init).1

/-! ## Fetch-trigger lemmas -/

lemma sorted_le_getLast : ∀ (l : List Nat) (a : Nat),
    l.Pairwise (· ≤ ·) → l.getLast? = some a → ∀ x ∈ l, x ≤ a
  | [], _, _, _, x, hx => by cases hx
  | [y], a, _, hl, x, hx => by
    have h1 : y = a := by simpa using hl
    have h2 : x = y := by simpa using hx
    omega
  | y :: z :: zs, a, hp, hl, x, hx => by
    rw [List.getLast?_cons_cons] at hl
    obtain ⟨hy, hp2⟩ := List.pairwise_cons.mp hp
    rcases List.mem_cons.mp hx with rfl | hx2
    · exact hy a (lastMem hl)
    · exact sorted_le_getLast (z :: zs) a hp2 hl x hx2

lemma shouldFetchNext_guards {rows : List Nat} {len : Nat}
    {hasN isF : Bool} (h : shouldFetchNext rows len hasN isF = true) :
    hasN = true ∧ isF = false := by
  unfold shouldFetchNext at h
  cases hlast : rows.getLast? with
  | none => rw [hlast] at h; exact absurd h (by simp)
  | some lastIdx =>
    rw [hlast] at h
    simp only [Bool.and_eq_true, Bool.not_eq_true'] at h
    exact ⟨h.2.1, h.2.2⟩

lemma fetchStep_inFlight {s t : FetchSt} (hstep : FetchStep s t)
    (hs : s.inFlight ≤ 1) : t.inFlight ≤ 1 := by
  cases hstep with
  | effect rows hfire =>
    have hidle : (s.inFlight != 0) = false :=
      (shouldFetchNext_guards hfire).2
    have h0 : s.inFlight = 0 := by simpa using hidle
    show s.inFlight + 1 ≤ 1
    omega
  | complete page hin =>
    show s.inFlight - 1 ≤ 1
    omega

lemma fetchReach_inFlight_le_one {pages0 : List (List Thread)}
    {st : FetchSt} (h : FetchReach pages0 st) : st.inFlight ≤ 1 := by
  induction h with
  | init => exact Nat.zero_le 1
  | step hr hstep ih => exact fetchStep_inFlight hstep ih

/-- C6: `fetchNextPage` is invoked exactly when the virtual rows are
non-empty and include the last loaded thread's row index, more pages
remain, and no fetch is in flight; the `hasNextPage` guard means no
fetch is ever initiated past the last page, and the `isFetchingNextPage`
guard keeps at most one fetch in flight in every reachable state.  The
visibility hypotheses record the row virtualizer's contract: its items
are ascending indices below the row count. -/
theorem fetch_trigger_correct (pages0 : List (List Thread)) (st : FetchSt)
    (hreach : FetchReach pages0 st)
    (rows : List Nat) (hne : rows ≠ [])
    (hsorted : rows.Pairwise (· ≤ ·))
    (hbound : ∀ r ∈ rows, r < (threadsOf st.pages).length)
    (hasN isF : Bool) :
    (shouldFetchNext rows (threadsOf st.pages).length hasN isF = true ↔
      ((threadsOf st.pages).length - 1) ∈ rows ∧
        hasN = true ∧ isF = false) ∧
    st.inFlight ≤ 1 ∧
    (hasNextPageOf st.pages = false →
      shouldFetchNext rows (threadsOf st.pages).length
        (hasNextPageOf st.pages) (st.inFlight != 0) = false) := by
  refine ⟨?_, fetchReach_inFlight_le_one hreach, ?_⟩
  · constructor
    · intro h
      obtain ⟨hasNT, isFF⟩ := shouldFetchNext_guards h
      unfold shouldFetchNext at h
      cases hlast : rows.getLast? with
      | none => rw [hlast] at h; exact absurd h (by simp)
      | some lastIdx =>
        rw [hlast] at h
        simp only [Bool.and_eq_true, decide_eq_true_eq] at h
        have hmem : lastIdx ∈ rows := lastMem hlast
        have hlt : lastIdx < (threadsOf st.pages).length := hbound _ hmem
        have hidx : lastIdx = (threadsOf st.pages).length - 1 := by
          have := h.1
          omega
        exact ⟨hidx ▸ hmem, hasNT, isFF⟩
    · rintro ⟨hmem, rfl, rfl⟩
      obtain ⟨lastIdx, hlast⟩ := lastExists hne
      have hle : (threadsOf st.pages).length - 1 ≤ lastIdx :=
        sorted_le_getLast rows lastIdx hsorted hlast _ hmem
      have hlt : lastIdx < (threadsOf st.pages).length :=
        hbound _ (lastMem hlast)
      have hdec : ((threadsOf st.pages).length : Int) - 1
          ≤ (lastIdx : Int) := by omega
      unfold shouldFetchNext
      rw [hlast]
      simp [hdec]
  · intro hno
    unfold shouldFetchNext
    cases hlast : rows.getLast? with
    | none => rfl
    | some lastIdx => simp [hno]

/-- A concrete thread for the fetch-trigger witness. -/
def sampleThread : Thread :=
  { address := "a", messages := [], first_message := "x",
    last_message := "y" }

theorem fetch_trigger_correct_witness :
    (shouldFetchNext [0] (threadsOf [[sampleThread]]).length true false
        = true ↔
      ((threadsOf [[sampleThread]]).length - 1) ∈ [0] ∧
        true = true ∧ false = false) ∧
    (FetchSt.mk [[sampleThread]] 0).inFlight ≤ 1 ∧
    (hasNextPageOf [[sampleThread]] = false →
      shouldFetchNext [0] (threadsOf [[sampleThread]]).length
        (hasNextPageOf [[sampleThread]])
        ((FetchSt.mk [[sampleThread]] 0).inFlight != 0) = false) :=
  fetch_trigger_correct [[sampleThread]] ⟨[[sampleThread]], 0⟩
    FetchReach.init [0] (by simp) (by simp)
    (by intro r hr; simp at hr; simp [hr, threadsOf]) true false

/-! ## Date indicator versus visible columns -/

/-- A concrete date parse for the indicator counterexample. -/
def parseDateZero : String → Int := fun _ => 0

/-- A thread whose only message sits exactly at the epoch. -/
def threadEpoch : Thread :=
  { address := "a", messages := [{ date := "e", type := 0 }],
    first_message := "e", last_message := "e" }

/-- C5 (counterexample): one loaded thread at the epoch gives
`minDate = maxDate = 0` and a single day column; at scroll offset 0 with
a 240px viewport, exactly day column 0 (day 0) is visible, yet the
indicator computes end index `⌊240 / 20⌋ = 12` and so displays an end
date 12 days after `maxDate` instead of the rightmost visible column's
day. -/
theorem indicator_counterexample :
    computeDateRange parseDateZero 999 [threadEpoch] = (0, 0) ∧
    daysCount 0 0 = 1 ∧
    visibleColumns 1 0 240 = [0] ∧
    indicatorEndIndex 0 240 = 12 ∧
    dayKey (indicatorEndDate 0 0 240) = 12 ∧
    dayKey 0 = 0 := by decide

/-- C5 (amended): the indicator shows
`start = minDate + ⌊s / 20⌋ days` and `end = minDate + ⌊(s + w) / 20⌋`
days; the start never precedes `minDate` for a non-negative scroll
offset and `start ≤ end` for a non-negative viewport width, and every
visible day column index lies in the window
`[startIndex − 11, endIndex]` — the 11-column shift being the 220px
address gutter that the computation does not subtract; the end index is
not clamped to the day-column range, so the indicated range can extend
past `maxDate`. -/
theorem indicator_amended (minT dc s w : Int) (hs : 0 ≤ s) (hw : 0 ≤ w) :
    minT ≤ indicatorStartDate minT s ∧
    indicatorStartIndex s ≤ indicatorEndIndex s w ∧
    (∀ i : Int, columnVisible dc s w i →
      indicatorStartIndex s - 11 ≤ i ∧ i ≤ indicatorEndIndex s w) := by
  refine ⟨?_, ?_, ?_⟩
  · unfold indicatorStartDate indicatorStartIndex
    have h1 : 0 ≤ s / DAY_CELL_WIDTH :=
      Int.ediv_nonneg hs (by decide)
    have h2 : 0 ≤ s / DAY_CELL_WIDTH * ONE_DAY :=
      mul_nonneg h1 (le_of_lt ONE_DAY_pos)
    omega
  · unfold indicatorStartIndex indicatorEndIndex
    exact Int.ediv_le_ediv (by decide) (by omega)
  · intro i hvis
    obtain ⟨hi0, hidc, hleft, hright⟩ := hvis
    simp only [ADDRESS_GUTTER, DAY_CELL_WIDTH] at hleft hright
    unfold indicatorStartIndex indicatorEndIndex DAY_CELL_WIDTH
    constructor
    · have hb : s / 20 ≤ (239 + i * 20) / 20 :=
        Int.ediv_le_ediv (by norm_num) (by omega)
      rw [Int.add_mul_ediv_right 239 i (by norm_num)] at hb
      have h239 : (239 : Int) / 20 = 11 := by decide
      omega
    · have hmul : i * 20 ≤ s + w := by omega
      exact (Int.le_ediv_iff_mul_le (by norm_num)).mpr hmul

theorem indicator_amended_witness :
    (0 : Int) ≤ indicatorStartDate 0 0 ∧
    indicatorStartIndex 0 ≤ indicatorEndIndex 0 240 :=
  ⟨(indicator_amended 0 1 0 240 (by decide) (by decide)).1,
   (indicator_amended 0 1 0 240 (by decide) (by decide)).2.1⟩

/-! ## Equivalence of the two component versions -/

/-- C9: the shared-horizontal-virtualizer implementation
(ThreadVisualization.tsx) and the per-row ColumnVirtualizer
implementation (part_000) compute identical cell content — date key,
message count, dot presence and size — and their DateIndicator
components compute identical visible start and end dates from the same
scroll state. -/
theorem implementations_agree :
    PerRow.getMessageCountByDay = getMessageCountByDay ∧
    PerRow.cellDate = cellDate ∧
    PerRow.cellDateKey = cellDateKey ∧
    PerRow.cellCount = cellCount ∧
    PerRow.dotSize = dotSize ∧
    PerRow.renderDot = renderDot ∧
    PerRow.indicatorStartIndex = indicatorStartIndex ∧
    PerRow.indicatorEndIndex = indicatorEndIndex ∧
    PerRow.indicatorStartDate = indicatorStartDate ∧
    PerRow.indicatorEndDate = indicatorEndDate :=
  ⟨rfl, rfl, rfl, rfl, rfl, rfl, rfl, rfl, rfl, rfl⟩

/-! ## Validation lemmas for the API client -/

lemma parseMessage_ok_iff (j : Json) :
    (∃ m, parseMessage j = Except.ok m) ↔ validMessage j = true := by
  cases j with
  | null => simp [parseMessage, validMessage, getField]
  | bool b => simp [parseMessage, validMessage, getField]
  | num n => simp [parseMessage, validMessage, getField]
  | str s => simp [parseMessage, validMessage, getField]
  | arr es => simp [parseMessage, validMessage, getField]
  | obj fields =>
    unfold parseMessage validMessage getField
    cases hd : jsonLookup fields "date" with
    | none => simp [hd]
    | some dv =>
      cases ht : jsonLookup fields "type" with
      | none => cases dv <;> simp [hd, ht, parseStr]
      | some tv =>
        cases dv <;> cases tv <;> simp [hd, ht, parseStr, parseNum]

lemma parseList_ok_iff {α : Type} (p : Json → Except String α)
    (valid : Json → Bool)
    (hp : ∀ j, (∃ a, p j = Except.ok a) ↔ valid j = true) :
    ∀ es : List Json,
      (∃ as, parseList p es = Except.ok as) ↔ es.all valid = true
  | [] => by simp [parseList]
  | e :: es => by
    unfold parseList
    cases hpe : p e with
    | error err =>
      have hv : valid e = false := by
        cases hvb : valid e
        · rfl
        · obtain ⟨a, ha⟩ := (hp e).mpr hvb
          rw [hpe] at ha
          cases ha
      simp [hpe, hv]
    | ok a =>
      have hv : valid e = true := (hp e).mp ⟨a, hpe⟩
      cases hrest : parseList p es with
      | error err =>
        have hall : es.all valid = false := by
          cases hab : es.all valid
          · rfl
          · obtain ⟨as, hok⟩ := (parseList_ok_iff p valid hp es).mpr hab
            rw [hrest] at hok
            cases hok
        simp [hpe, hrest, hv, hall]
      | ok as =>
        have hall : es.all valid = true :=
          (parseList_ok_iff p valid hp es).mp ⟨as, hrest⟩
        simp [hpe, hrest, hv, hall]

lemma parseThread_ok_iff (j : Json) :
    (∃ t, parseThread j = Except.ok t) ↔ validThread j = true := by
  cases j with
  | null => simp [parseThread, validThread, getField]
  | bool b => simp [parseThread, validThread, getField]
  | num n => simp [parseThread, validThread, getField]
  | str s => simp [parseThread, validThread, getField]
  | arr es => simp [parseThread, validThread, getField]
  | obj fields =>
    unfold parseThread validThread getField
    cases ha : jsonLookup fields "address" with
    | none => simp [ha]
    | some av =>
      cases av with
      | null => simp [ha, parseStr]
      | bool b => simp [ha, parseStr]
      | num n => simp [ha, parseStr]
      | arr es2 => simp [ha, parseStr]
      | obj fs2 => simp [ha, parseStr]
      | str s =>
        cases hm : jsonLookup fields "messages" with
        | none => simp [ha, hm, parseStr]
        | some mv =>
          cases mv with
          | null => simp [ha, hm, parseStr, parseMessageArray]
          | bool b => simp [ha, hm, parseStr, parseMessageArray]
          | num n => simp [ha, hm, parseStr, parseMessageArray]
          | str s2 => simp [ha, hm, parseStr, parseMessageArray]
          | obj fs2 => simp [ha, hm, parseStr, parseMessageArray]
          | arr ms =>
            cases hms : parseList parseMessage ms with
            | error err =>
              have hall : ms.all validMessage = false := by
                cases hab : ms.all validMessage
                · rfl
                · obtain ⟨as, hok⟩ :=
                    (parseList_ok_iff parseMessage validMessage
                      parseMessage_ok_iff ms).mpr hab
                  rw [hms] at hok
                  cases hok
              simp [ha, hm, parseStr, parseMessageArray, hms, hall]
            | ok msgs =>
              have hall : ms.all validMessage = true :=
                (parseList_ok_iff parseMessage validMessage
                  parseMessage_ok_iff ms).mp ⟨msgs, hms⟩
              cases hf : jsonLookup fields "first_message" with
              | none => simp [ha, hm, parseStr, parseMessageArray, hms, hall, hf]
              | some fv =>
                cases fv with
                | null =>
                  simp [ha, hm, parseStr, parseMessageArray, hms, hall, hf]
                | bool b =>
                  simp [ha, hm, parseStr, parseMessageArray, hms, hall, hf]
                | num n =>
                  simp [ha, hm, parseStr, parseMessageArray, hms, hall, hf]
                | arr es3 =>
                  simp [ha, hm, parseStr, parseMessageArray, hms, hall, hf]
                | obj fs3 =>
                  simp [ha, hm, parseStr, parseMessageArray, hms, hall, hf]
                | str fs =>
                  cases hl : jsonLookup fields "last_message" with
                  | none =>
                    simp [ha, hm, parseStr, parseMessageArray, hms, hall,
                      hf, hl]
                  | some lv =>
                    cases lv <;>
                      simp [ha, hm, parseStr, parseMessageArray, hms, hall,
                        hf, hl]

lemma parseThreadArray_ok_iff (j : Json) :
    (∃ ts, parseThreadArray j = Except.ok ts) ↔ validBody j = true := by
  cases j with
  | null => simp [parseThreadArray, validBody]
  | bool b => simp [parseThreadArray, validBody]
  | num n => simp [parseThreadArray, validBody]
  | str s => simp [parseThreadArray, validBody]
  | obj fs => simp [parseThreadArray, validBody]
  | arr es =>
    exact parseList_ok_iff parseThread validThread parseThread_ok_iff es

/-- C7: `getThreads` succeeds with the parsed page exactly when the
response is ok and the body is an array in which every element carries a
string `address`, a list of messages each with a string `date` and a
numeric `type`, and string `first_message` / `last_message` timestamps;
a non-ok response throws `"Failed to fetch threads"`, a non-conforming
body throws a validation error, and a malformed thread is never
returned. -/
theorem getThreads_correct (resp : HttpResponse) :
    (resp.ok = false →
      getThreads resp = Except.error "Failed to fetch threads") ∧
    (resp.ok = true →
      ((∃ ts, getThreads resp = Except.ok ts) ↔
        validBody resp.body = true)) ∧
    (∀ ts, getThreads resp = Except.ok ts →
      resp.ok = true ∧ validBody resp.body = true) := by
  refine ⟨?_, ?_, ?_⟩
  · intro h
    unfold getThreads
    rw [h]
    rfl
  · intro h
    unfold getThreads
    rw [h]
    simpa using parseThreadArray_ok_iff resp.body
  · intro ts hok
    unfold getThreads at hok
    cases hr : resp.ok with
    | false =>
      rw [hr] at hok
      simp at hok
    | true =>
      rw [hr] at hok
      simp only [Bool.not_true, Bool.false_eq_true, if_false] at hok
      exact ⟨rfl, (parseThreadArray_ok_iff resp.body).mp ⟨ts, hok⟩⟩

theorem getThreads_correct_witness :
    ∃ ts, getThreads ⟨true, Json.arr []⟩ = Except.ok ts :=
  ((getThreads_correct ⟨true, Json.arr []⟩).2.1 rfl).mpr rfl

end Reeply
